import Mathlib

set_option maxRecDepth 100000


/-!
Shallow embedding of the Congressional Record speech-segmentation and
bill-linking engine of `src/etl/speeches.py`, together with theorems
settling the specification claims about it.

Text is modelled as `List Char` (Python code points); the regular
expressions of the source (`BILL_PATTERN`, `SPEAKER_PATTERN`,
`TOPIC_PATTERN`) are embedded as hand-written matchers that follow
Python `re` semantics (leftmost match, ordered alternation, greedy
quantifiers with backtracking) specialised to those concrete patterns.
ASCII texts are assumed for the Unicode-sensitive character classes.
-/

/-- Python `\s` (ASCII range): space, tab, newline, carriage return,
vertical tab, form feed.  Also the set stripped by `str.strip()`. -/
def pyWs (c : Char) : Bool :=
  c == ' ' || c == '\t' || c == '\n' || c == '\r' || c == '\x0b' || c == '\x0c'

/-- Python `\w` (ASCII range): letters, digits, underscore; used for `\b`. -/
def isWordCh (c : Char) : Bool :=
  c.isAlpha || c.isDigit || c == '_'

/-- The character class `[.\s]` terminating a speaker announcement. -/
def isDotOrWs (c : Char) : Bool :=
  c == '.' || pyWs c

/-- Length of the maximal prefix of `l` satisfying `p`. -/
def countWhile (p : Char → Bool) (l : List Char) : Nat :=
  (l.takeWhile p).length

/-- Python `str.strip()`: drop leading and trailing whitespace. -/
def pstrip (l : List Char) : List Char :=
  ((l.dropWhile pyWs).reverse.dropWhile pyWs).reverse

/-- Python `int` applied to a run of decimal digits. -/
def digitsToNat (l : List Char) : Nat :=
  l.foldl (fun n c => n * 10 + (c.toNat - 48)) 0

/-! ### BILL_PATTERN

`\b(H\.?\s*R\.?|S\.?|H\.?\s*J\.?\s*Res\.?|S\.?\s*J\.?\s*Res\.?|`
`H\.?\s*Con\.?\s*Res\.?|S\.?\s*Con\.?\s*Res\.?)\s*(\d+)\b` with
`re.IGNORECASE`.  Each alternative is a sequence of "units": a run of
letters (case-insensitive), one optional period, and `\s*` before the
next unit.  Inside an alternative the optional period and the `\s*` are
deterministic (the character that could be given back can never be
consumed by what follows), so only the choice of alternative backtracks,
in source order. -/

/-- Match a run of letters case-insensitively; each pattern letter is
given as its (lower, upper) pair.  Returns (consumed text, rest). -/
def eatLetters : List (Char × Char) → List Char → Option (List Char × List Char)
  | [], cs => some ([], cs)
  | _ :: _, [] => none
  | (lo, hi) :: ps, c :: cs =>
    if c == lo || c == hi then
      match eatLetters ps cs with
      | some (a, r) => some (c :: a, r)
      | none => none
    else none

/-- `\.?` — consume an optional period. Returns (consumed text, rest). -/
def eatDot : List Char → (List Char × List Char)
  | [] => ([], [])
  | c :: cs => if c == '.' then (['.'], cs) else ([], c :: cs)

/-- `\s*` — consume optional whitespace. Returns (consumed text, rest). -/
def eatWs (cs : List Char) : List Char × List Char :=
  (cs.takeWhile pyWs, cs.dropWhile pyWs)

/-- One alternative of the type group: units of letters with optional
periods, `\s*` between units (the trailing `\s*` of the whole citation
is outside the group).  Returns (captured group text, rest). -/
def matchUnits : List (List (Char × Char)) → List Char → Option (List Char × List Char)
  | [], cs => some ([], cs)
  | [u], cs =>
    match eatLetters u cs with
    | some (a, r) => let d := eatDot r; some (a ++ d.1, d.2)
    | none => none
  | u :: us, cs =>
    match eatLetters u cs with
    | some (a, r) =>
      let d := eatDot r
      let w := eatWs d.2
      match matchUnits us w.2 with
      | some (b, r2) => some (a ++ d.1 ++ w.1 ++ b, r2)
      | none => none
    | none => none

/-- The six alternatives of `BILL_PATTERN`'s type group, in source
order: HR, S, HJRes, SJRes, HConRes, SConRes. -/
def billAlts : List (List (List (Char × Char))) :=
  [ [[('h', 'H')], [('r', 'R')]],
    [[('s', 'S')]],
    [[('h', 'H')], [('j', 'J')], [('r', 'R'), ('e', 'E'), ('s', 'S')]],
    [[('s', 'S')], [('j', 'J')], [('r', 'R'), ('e', 'E'), ('s', 'S')]],
    [[('h', 'H')], [('c', 'C'), ('o', 'O'), ('n', 'N')], [('r', 'R'), ('e', 'E'), ('s', 'S')]],
    [[('s', 'S')], [('c', 'C'), ('o', 'O'), ('n', 'N')], [('r', 'R'), ('e', 'E'), ('s', 'S')]] ]

/-- The trailing `\b` after the digits: end of text or a non-word char. -/
def wordStopOk : List Char → Bool
  | [] => true
  | c :: _ => !(isWordCh c)

/-- After the type group: `\s*(\d+)\b`.  Returns (digits, rest).
Backtracking `\d+` cannot rescue a failed `\b` (a shorter digit run is
followed by a digit, a word char), so the greedy run is decisive. -/
def finishBill (cs : List Char) : Option (List Char × List Char) :=
  let r := (eatWs cs).2
  let ds := r.takeWhile Char.isDigit
  let r2 := r.dropWhile Char.isDigit
  if ds.isEmpty then none
  else if wordStopOk r2 then some (ds, r2) else none

/-- Try the alternatives in order; on continuation failure the next
alternative is tried, exactly as the `re` engine backtracks into the
group.  Returns (group 1 text, group 2 digits, rest). -/
def tryBillAlts : List (List (List (Char × Char))) → List Char →
    Option (List Char × List Char × List Char)
  | [], _ => none
  | alt :: alts, cs =>
    match matchUnits alt cs with
    | some (g1, r) =>
      match finishBill r with
      | some (ds, r2) => some (g1, ds, r2)
      | none => tryBillAlts alts cs
    | none => tryBillAlts alts cs

/-- Match `BILL_PATTERN` (without the leading `\b`) at the head of `cs`. -/
def tryBill (cs : List Char) : Option (List Char × List Char × List Char) :=
  tryBillAlts billAlts cs

/-- The leading `\b` of `BILL_PATTERN`: since the first pattern char is
a letter (a word char), the boundary holds iff the preceding char is
absent or a non-word char. -/
def atWordStart : Option Char → Bool
  | none => true
  | some c => !(isWordCh c)

/-- `BILL_PATTERN.finditer`: scan left to right, emit non-overlapping
matches, resume after each match.  `prev` is the char before the
current position; fuel bounds the recursion (the wrapper passes the
text length, which suffices since every step consumes ≥ 1 char). -/
def billScan : Nat → Option Char → List Char → List (List Char × List Char)
  | _, _, [] => []
  | 0, _, _ => []
  | fuel + 1, prev, c :: rest =>
    if atWordStart prev then
      match tryBill (c :: rest) with
      | some (g1, ds, r2) => (g1, ds) :: billScan fuel (some (ds.getLastD '0')) r2
      | none => billScan fuel (some c) rest
    else billScan fuel (some c) rest

/-- `match.group(1).upper().replace(".", "").replace(" ", "")`.
(The source's `type_map.get(bill_type, bill_type)` is the identity on
every input, so it adds nothing.) -/
def normType (g1 : List Char) : List Char :=
  ((g1.map Char.toUpper).filter (fun c => !(c == '.'))).filter (fun c => !(c == ' '))

/-- `set.add` observed through insertion order: append if absent. -/
def addUnique (acc : List (List Char)) (x : List Char) : List (List Char) :=
  if x ∈ acc then acc else acc ++ [x]

/-- Core of `detect_bill_references`: the scanned text is
`f"{title or ''} {text}"`; the result is the CONTENT of the Python set
`bill_refs`, listed in first-occurrence (source) order. -/
def detectCore (text title : List Char) : List (List Char) :=
  let search := title ++ ' ' :: text
  ((billScan search.length none search).map (fun m => normType m.1 ++ m.2)).foldl addUnique []

/-- The set of detected references (first-occurrence order), as strings. -/
def detect_set (text : String) (title : Option String) : List String :=
  (detectCore text.data (title.getD "").data).map (fun l => String.mk l)

/-- An admissible iteration order for a Python `set` of strings: any
permutation of its contents (CPython's order is hash-dependent and
unspecified). -/
def SetOrder (ord : List String → List String) : Prop :=
  ∀ l : List String, (ord l).Perm l

/-- `detect_bill_references(text, title)` = `list(set(...))`: the set's
contents arranged by the (unspecified) iteration order `ord`. -/
def detect_bill_references (ord : List String → List String)
    (text : String) (title : Option String) : List String :=
  ord (detect_set text title)

/-! ### lookup_bill_by_reference -/

/-- `re.match(r'([A-Z]+)(\d+)', bill_ref)`: a nonempty run of
upper-case ASCII letters followed by a nonempty run of digits; anchored
at the start only, trailing text ignored.  Returns (type, number). -/
def parseBillRef (s : String) : Option (String × Nat) :=
  let cs := s.data
  let ts := cs.takeWhile Char.isUpper
  let rest := cs.dropWhile Char.isUpper
  let ds := rest.takeWhile Char.isDigit
  if ts.isEmpty || ds.isEmpty then none
  else some (String.mk ts, digitsToNat ds)

/-- Python `str.lower()` on an ASCII string. -/
def strLower (s : String) : String :=
  String.mk (s.data.map Char.toLower)

/-- `lookup_bill_by_reference(bill_ref, session)`: parse the reference,
lower-case the type and delegate to the store (the database query is
the abstract capability `find`).  `None` on parse failure. -/
def lookup_bill_by_reference {β : Type} (find : String → Nat → Option β)
    (ref : String) : Option β :=
  match parseBillRef ref with
  | none => none
  | some (t, n) => find (strLower t) n

/-! ### SPEAKER_PATTERN

`^(Mr\.|Mrs\.|Ms\.|Miss|The\s+SPEAKER|The\s+PRESIDING\s+OFFICER|`
`The\s+ACTING\s+PRESIDENT|The\s+VICE\s+PRESIDENT)\s*`
`([A-Z][A-Z\s\-\']+)?(?:\s+of\s+([A-Za-z]+))?[.\s]` with `re.MULTILINE`.

The title alternatives are mutually exclusive at any position, so the
alternation is deterministic.  The `\s*` after the title and the
optional name group genuinely backtrack (greedy, longest first); inside
the `of`-clause the `\s+` runs and the state's letter run are forced to
their maximal lengths (a shorter run leaves a character the next
pattern element can never accept). -/

/-- Try `f` at `n, n-1, ..., 0`, returning the first `some` — the order
in which a greedy quantifier offers its candidate lengths. -/
def downFind {α : Type} (f : Nat → Option α) : Nat → Option α
  | 0 => f 0
  | n + 1 =>
    match f (n + 1) with
    | some x => some x
    | none => downFind f n

/-- Case-sensitive literal match; returns the rest on success. -/
def eatLit : List Char → List Char → Option (List Char)
  | [], cs => some cs
  | _ :: _, [] => none
  | p :: ps, c :: cs => if c == p then eatLit ps cs else none

/-- `\s+` — at least one whitespace char. Returns (consumed, rest).
Greedy-maximal is forced whenever the next pattern element starts with
a non-whitespace literal or class, which is the case at every use. -/
def eatWs1 (cs : List Char) : Option (List Char × List Char) :=
  let w := cs.takeWhile pyWs
  if w.isEmpty then none else some (w, cs.dropWhile pyWs)

/-- `\s+`-separated all-caps words following a literal `The`. -/
def eatWords : List (List Char) → List Char → Option (List Char × List Char)
  | [], cs => some ([], cs)
  | w :: ws, cs =>
    match eatWs1 cs with
    | none => none
    | some (sp, r) =>
      match eatLit w r with
      | none => none
      | some r2 =>
        match eatWords ws r2 with
        | some (t, r3) => some (sp ++ w ++ t, r3)
        | none => none

/-- One `The\s+WORD(\s+WORD)` title alternative; the captured text
includes the whitespace exactly as matched. -/
def tryThe (words : List (List Char)) (cs : List Char) : Option (List Char × List Char) :=
  match eatLit (['T', 'h', 'e']) cs with
  | none => none
  | some r =>
    match eatWords words r with
    | some (t, r2) => some (['T', 'h', 'e'] ++ t, r2)
    | none => none

/-- A literal title alternative such as `Mr\.`. -/
def litTitle (t : List Char) (cs : List Char) : Option (List Char × List Char) :=
  match eatLit t cs with
  | some r => some (t, r)
  | none => none

/-- Group 1: the eight title alternatives in source order. -/
def tryTitle (cs : List Char) : Option (List Char × List Char) :=
  (litTitle ("Mr.".data) cs).orElse fun _ =>
  (litTitle ("Mrs.".data) cs).orElse fun _ =>
  (litTitle ("Ms.".data) cs).orElse fun _ =>
  (litTitle ("Miss".data) cs).orElse fun _ =>
  (tryThe [("SPEAKER".data)] cs).orElse fun _ =>
  (tryThe [("PRESIDING".data), ("OFFICER".data)] cs).orElse fun _ =>
  (tryThe [("ACTING".data), ("PRESIDENT".data)] cs).orElse fun _ =>
  tryThe [("VICE".data), ("PRESIDENT".data)] cs

/-- The name class `[A-Z\s\-\']`. -/
def nameClassCh (c : Char) : Bool :=
  c.isUpper || pyWs c || c == '-' || c == '\''

/-- The terminator `[.\s]` alone (optional groups both skipped).
Returns (empty state, terminator char, rest). -/
def cOnly : List Char → Option (List Char × Char × List Char)
  | [] => none
  | c :: r => if isDotOrWs c then some ([], c, r) else none

/-- `(?:\s+of\s+([A-Za-z]+))` followed by `[.\s]`.  All quantifiers
inside are forced to their greedy maxima (see the section comment), so
this is deterministic.  Returns (state, terminator char, rest). -/
def ofThenC (cs : List Char) : Option (List Char × Char × List Char) :=
  match eatWs1 cs with
  | none => none
  | some (_, r1) =>
    match eatLit (['o', 'f']) r1 with
    | none => none
    | some r2 =>
      match eatWs1 r2 with
      | none => none
      | some (_, r3) =>
        let st := r3.takeWhile Char.isAlpha
        let r4 := r3.dropWhile Char.isAlpha
        if st.isEmpty then none
        else
          match r4 with
          | c :: r5 => if isDotOrWs c then some (st, c, r5) else none
          | [] => none

/-- The optional `of`-clause then the terminator: the greedy `(?:...)?`
tries the clause first, then skips it. -/
def tryOfC (cs : List Char) : Option (List Char × Char × List Char) :=
  match ofThenC cs with
  | some r => some r
  | none => cOnly cs

/-- The optional name group `([A-Z][A-Z\s\-\']+)?` (greedy: longest run
first, then absent) followed by `tryOfC`.
Returns (name, state, terminator char, rest). -/
def tryNameOfC (cs : List Char) : Option (List Char × List Char × Char × List Char) :=
  let noName : Option (List Char × List Char × Char × List Char) :=
    match tryOfC cs with
    | some (st, c, r) => some ([], st, c, r)
    | none => none
  match cs with
  | [] => noName
  | c0 :: r0 =>
    if c0.isUpper then
      let withName := downFind (fun k =>
        if k = 0 then none
        else
          match tryOfC (r0.drop k) with
          | some (st, c, r) => some (c0 :: r0.take k, st, c, r)
          | none => none) (countWhile nameClassCh r0)
      match withName with
      | some r => some r
      | none => noName
    else noName

/-- Everything after the title: `\s*` (greedy, backtracking) then the
name group, `of`-clause and terminator. -/
def trySpeakerCont (cs : List Char) : Option (List Char × List Char × Char × List Char) :=
  downFind (fun s => tryNameOfC (cs.drop s)) (countWhile pyWs cs)

/-- The pieces of one speaker-announcement match. -/
structure SParts where
  title : List Char
  name : List Char
  state : List Char
  cChar : Char
  rest : List Char
  deriving Repr

/-- Match `SPEAKER_PATTERN` (sans the `^` anchor) at the head of `cs`. -/
def trySpeaker (cs : List Char) : Option SParts :=
  match tryTitle cs with
  | none => none
  | some (t, r) =>
    match trySpeakerCont r with
    | none => none
    | some (nm, st, c, rest) => some ⟨t, nm, st, c, rest⟩

/-- `^` in MULTILINE mode: start of text or just after a newline. -/
def lineStartB : Option Char → Bool
  | none => true
  | some c => c == '\n'

/-- One speaker match with its span, as used by `_parse_speeches`:
`start`/`stop` are `match.start()`/`match.end()`; the groups are kept
as matched (`group(2)`/`group(3)` absent ↦ empty, mirroring `or ""`). -/
structure SMatch where
  start : Nat
  stop : Nat
  title : List Char
  name : List Char
  state : List Char
  deriving DecidableEq, Repr

/-- `SPEAKER_PATTERN.finditer`: non-overlapping left-to-right matches,
resuming after each match.  Fuel bounds recursion; the wrapper passes
the text length (every step consumes ≥ 1 char). -/
def speakerScan : Nat → Nat → Option Char → List Char → List SMatch
  | _, _, _, [] => []
  | 0, _, _, _ => []
  | fuel + 1, pos, prev, c :: rest =>
    if lineStartB prev then
      match trySpeaker (c :: rest) with
      | some p =>
        let consumed := (c :: rest).length - p.rest.length
        { start := pos, stop := pos + consumed,
          title := p.title, name := p.name, state := p.state }
          :: speakerScan fuel (pos + consumed) (some p.cChar) p.rest
      | none => speakerScan fuel (pos + 1) (some c) rest
    else speakerScan fuel (pos + 1) (some c) rest

/-! ### TOPIC_PATTERN

`^([A-Z][A-Z\s\-,\.\']{10,})$` with `re.MULTILINE`, used through
`re.search` (first match).  Since the class contains `\s ⊇ \n`, the
greedy `{10,}` can run across newlines; it backtracks from its maximal
run down to 10 looking for a position where `$` holds (end of text or
just before a newline). -/

/-- The topic class `[A-Z\s\-,\.\']`. -/
def topicClassCh (c : Char) : Bool :=
  c.isUpper || pyWs c || c == '-' || c == ',' || c == '.' || c == '\''

/-- `$` in MULTILINE mode: end of text or just before a newline. -/
def endOkB : List Char → Bool
  | [] => true
  | c :: _ => c == '\n'

/-- A candidate group of length `g` at the head of `cs`: at least
1 + 10 chars, ending where `$` holds. -/
def groupOk (cs : List Char) (g : Nat) : Option (List Char) :=
  if 11 ≤ g then (if endOkB (cs.drop g) then some (cs.take g) else none) else none

/-- `TOPIC_PATTERN.search`: first position that is a line start and
begins a qualifying group; the group is greedy-maximal there. -/
def topicSearch : Option Char → List Char → Option (List Char)
  | _, [] => none
  | prev, c :: rest =>
    if lineStartB prev && c.isUpper then
      match downFind (groupOk (c :: rest)) (countWhile topicClassCh rest + 1) with
      | some g => some g
      | none => topicSearch (some c) rest
    else topicSearch (some c) rest

/-- Topic recovery on a preceding-text window:
`TOPIC_PATTERN.search(window)` then `.group(1).strip()`. -/
def recover_topic (window : List Char) : Option (List Char) :=
  (topicSearch none window).map pstrip

/-! ### _parse_speeches and _speech_dict_to_model -/

/-- A `datetime.date`. -/
structure PyDate where
  year : Nat
  month : Nat
  day : Nat
  deriving DecidableEq, Repr, Inhabited

/-- The `Chamber` enum. -/
inductive Chamber where
  | house
  | senate
  deriving DecidableEq, Repr, Inhabited

/-- The dict built for each retained speech turn. -/
structure SpeechDict where
  speaker_name : String
  speaker_state : Option String
  title : Option String
  content : String
  chamber : Chamber
  speech_date : PyDate
  deriving DecidableEq, Repr, Inhabited

/-- Assemble one speech dict from a match and its (already stripped,
≥ 100 chars) content: display name `f"{title} {name}".strip()` plus
`" ({state})"` when a state was captured, `state[:2].upper()` as the
state code, the topic from the 200-char window before the match, and
the content truncated to 10,000 chars. -/
def buildSpeech (cs : List Char) (ch : Chamber) (d : PyDate) (m : SMatch)
    (content0 : List Char) : SpeechDict :=
  let speaker0 := pstrip (m.title ++ ' ' :: m.name)
  let speaker := if m.state.isEmpty then speaker0
    else speaker0 ++ ' ' :: '(' :: (m.state ++ [')'])
  { speaker_name := String.mk speaker
    speaker_state := if m.state.isEmpty then none
      else some (String.mk ((m.state.take 2).map Char.toUpper))
    title := (recover_topic ((cs.take m.start).drop (m.start - 200))).map String.mk
    content := String.mk (content0.take 10000)
    chamber := ch
    speech_date := d }

/-- The loop body of `_parse_speeches`: content runs from this match's
end to the next match's start (or end of text); turns under 100 chars
are skipped; after appending, the loop breaks at 50 speeches. -/
def parseLoop (cs : List Char) (ch : Chamber) (d : PyDate) :
    List SMatch → Nat → List SpeechDict
  | [], _ => []
  | m :: rest, count =>
    let stop := match rest with
      | [] => cs.length
      | m2 :: _ => m2.start
    let content0 := pstrip ((cs.take stop).drop m.stop)
    if content0.length < 100 then parseLoop cs ch d rest count
    else
      let s := buildSpeech cs ch d m content0
      if 50 ≤ count + 1 then [s] else s :: parseLoop cs ch d rest (count + 1)

/-- `CongressionalRecordFetcher._parse_speeches(text, chamber, date)`.
(The early return on an empty match list equals running the loop on
`[]`, so only the empty-text guard is modelled separately.) -/
def parse_speeches (text : String) (ch : Chamber) (d : PyDate) : List SpeechDict :=
  let cs := text.data
  if cs.isEmpty then []
  else parseLoop cs ch d (speakerScan cs.length 0 none cs) 0

/-- The same loop with the 50-speech cap removed (specification aid). -/
def parseLoopNoCap (cs : List Char) (ch : Chamber) (d : PyDate) :
    List SMatch → List SpeechDict
  | [] => []
  | m :: rest =>
    let stop := match rest with
      | [] => cs.length
      | m2 :: _ => m2.start
    let content0 := pstrip ((cs.take stop).drop m.stop)
    if content0.length < 100 then parseLoopNoCap cs ch d rest
    else buildSpeech cs ch d m content0 :: parseLoopNoCap cs ch d rest

/-- `parse_speeches` without the 50-turn cap (specification aid). -/
def parse_nocap (text : String) (ch : Chamber) (d : PyDate) : List SpeechDict :=
  let cs := text.data
  if cs.isEmpty then []
  else parseLoopNoCap cs ch d (speakerScan cs.length 0 none cs)

/-- The `FloorSpeech` model fields set by `_speech_dict_to_model`. -/
structure FloorSpeech where
  congress : Nat
  chamber : Chamber
  speech_date : PyDate
  speaker_name : String
  speaker_state : Option String
  title : Option String
  content : String
  related_bill_id : Option String
  deriving DecidableEq, Repr

/-- `CongressionalRecordFetcher._speech_dict_to_model`: detect bill
references in (content, title) and take the first element of the
returned list (`bill_refs[0] if bill_refs else None`); `ord` is the
Python set's iteration order. -/
def speech_dict_to_model (ord : List String → List String) (sd : SpeechDict) : FloorSpeech :=
  let refs := detect_bill_references ord sd.content sd.title
  { congress := if 2025 ≤ sd.speech_date.year then 119 else 118
    chamber := sd.chamber
    speech_date := sd.speech_date
    speaker_name := sd.speaker_name
    speaker_state := sd.speaker_state
    title := sd.title
    content := sd.content
    related_bill_id := refs.head? }

/-! ### Scenario constants -/

def dateX : PyDate := ⟨2025, 6, 1⟩

def txtC1 : String := "I support S. 1 and H.R. 2 strongly."

def findHr : String → Nat → Option Nat :=
  fun t n => if t = "hr" ∧ n = 2988 then some 7 else none

def txtOhio : String := "Mr. SMITH of Ohio. I rise today to discuss H.R. 2988 and its impact on our communities across the state, which has been significant and far reaching for constituents in every district."

def spOhio : SpeechDict :=
  { speaker_name := "Mr. SMITH (Ohio)"
    speaker_state := some "OH"
    title := none
    content := "I rise today to discuss H.R. 2988 and its impact on our communities across the state, which has been significant and far reaching for constituents in every district."
    chamber := Chamber.house
    speech_date := ⟨2025, 10, 12⟩ }

def txtTexas : String := "Mr. GARCIA of Texas. Today I want to speak about the priorities of working families in my district and across the nation, which deserve real attention from this chamber."

def txtAlaska : String := "Ms. PELTOLA of Alaska. The fishing communities I represent have faced year after year of mounting challenges that demand immediate action by this body and the administration."

def txtOhioB : String := "Mr. BROWN of Ohio. Our manufacturing workers have carried this state for generations, and they deserve trade policies that respect the dignity of their labor and communities."

def txtAdams : String := "Mr. ADAMS. Today the committee continued its extended consideration of the annual appropriations measure, hearing detailed testimony from numerous witnesses throughout the afternoon session."

def spAdams : SpeechDict :=
  (parse_speeches txtAdams Chamber.house dateX).getD 0 default

def spTexas : SpeechDict :=
  (parse_speeches txtTexas Chamber.house dateX).getD 0 default

/-! ### Specification predicate for TOPIC_PATTERN matches -/

/-- Test an optional char against a predicate (false when absent). -/
def optIs (o : Option Char) (p : Char → Bool) : Bool :=
  match o with
  | some c => p c
  | none => false

/-- Declarative statement that `TOPIC_PATTERN` can match at position `p`
of `cs` with group length `g`: `p` is a line start, the char at `p` is
upper-case, the following `g - 1` chars are in the topic class (so the
group has at least 1 + 10 chars), and position `p + g` is a line end. -/
def topicMatchAtB (cs : List Char) (p g : Nat) : Bool :=
  (p == 0 || optIs (cs[p - 1]?) (fun x => x == '\n')) &&
  optIs (cs[p]?) Char.isUpper &&
  decide (11 ≤ g) &&
  decide (p + g ≤ cs.length) &&
  ((List.range (g - 1)).all fun j => optIs (cs[p + 1 + j]?) topicClassCh) &&
  (decide (p + g = cs.length) || optIs (cs[p + g]?) (fun x => x == '\n'))

/-- The char before position `n`, as seen by the scan. -/
def prevAt (cs : List Char) (n : Nat) : Option Char :=
  if n = 0 then none else cs[n - 1]?

def txtTopic : String := "FIRST TOPIC HEADING\nSECOND TOPIC HEADING\nMr. SMITH of Ohio. I rise today to discuss H.R. 2988 and its impact on our communities across the state, which has been significant and far reaching for constituents in every district."

/-! ### Character and digit-run lemmas -/

theorem digit_not_pyWs (c : Char) (h : c.isDigit = true) : pyWs c = false := by
  cases hpw : pyWs c
  · rfl
  · exfalso
    simp only [pyWs, Bool.or_eq_true, beq_iff_eq] at hpw
    rcases hpw with ((((h1 | h1) | h1) | h1) | h1) | h1 <;> subst h1 <;> exact absurd h (by decide)

theorem digit_ne_dot (c : Char) (h : c.isDigit = true) : c ≠ '.' := by
  intro he; subst he; exact absurd h (by decide)

theorem eatDot_cons_ne (c : Char) (cs : List Char) (h : (c == '.') = false) :
    eatDot (c :: cs) = ([], c :: cs) := by
  simp [eatDot, h]

theorem pyWs_space : pyWs ' ' = true := rfl

theorem pyWs_H : pyWs 'H' = false := rfl
theorem pyWs_R : pyWs 'R' = false := rfl
theorem pyWs_S : pyWs 'S' = false := rfl
theorem pyWs_J : pyWs 'J' = false := rfl
theorem pyWs_C : pyWs 'C' = false := rfl
theorem pyWs_O : pyWs 'O' = false := rfl
theorem pyWs_N : pyWs 'N' = false := rfl
theorem pyWs_E : pyWs 'E' = false := rfl
theorem pyWs_dot : pyWs '.' = false := rfl

theorem digit_beq_dot_false (c : Char) (h : c.isDigit = true) : (c == '.') = false := by
  cases hb : c == '.'
  · rfl
  · exact absurd h (by rw [show c = '.' from beq_iff_eq.mp hb]; decide)

theorem tryBill_hr_dotsp (d : Char) (ds : List Char) (hd : d.isDigit = true)
    (hds : ∀ c ∈ ds, c.isDigit = true) :
    tryBill (['H', '.', 'R', '.', ' '] ++ d :: ds) = some (['H', '.', 'R', '.'], d :: ds, []) := by
  have hpd : pyWs d = false := digit_not_pyWs d hd
  have h2 : ds.takeWhile Char.isDigit = ds := List.takeWhile_eq_self_iff.mpr hds
  have h3 : ds.dropWhile Char.isDigit = [] := List.dropWhile_eq_nil_iff.mpr (fun a ha => hds a ha)
  simp [tryBill, tryBillAlts, billAlts, matchUnits, eatLetters, eatDot, eatWs, finishBill,
    wordStopOk, List.takeWhile_cons, List.dropWhile_cons, pyWs_space, pyWs_H, pyWs_R, pyWs_S,
    pyWs_J, pyWs_C, pyWs_O, pyWs_N, pyWs_E, pyWs_dot, hpd, hd, h2, h3]
theorem tryBill_nil : tryBill [] = none := by decide

theorem tryBill_space (l : List Char) : tryBill (' ' :: l) = none := by
  simp [tryBill, tryBillAlts, billAlts, matchUnits, eatLetters]

theorem atWordStart_none : atWordStart none = true := rfl

theorem atWordStart_space : atWordStart (some ' ') = true := rfl

theorem detectCore_single (pre g1 : List Char) (ds : List Char)
    (h : tryBill (pre ++ ds) = some (g1, ds, [])) :
    detectCore (pre ++ ds) [] = [normType g1 ++ ds] := by
  have hne : pre ++ ds ≠ [] := by
    intro he
    rw [he, tryBill_nil] at h
    exact Option.noConfusion h
  obtain ⟨c, rest, hcr⟩ := List.exists_cons_of_ne_nil hne
  rw [hcr] at h
  unfold detectCore
  rw [List.nil_append, hcr]
  simp only [List.length_cons]
  simp [billScan, atWordStart_none, atWordStart_space, tryBill_space, h, addUnique]

theorem tryBill_hr_plain_sp (d : Char) (ds : List Char) (hd : d.isDigit = true)
    (hds : ∀ c ∈ ds, c.isDigit = true) :
    tryBill (['H', 'R', ' '] ++ d :: ds) = some (['H', 'R'], d :: ds, []) := by
  have hpd : pyWs d = false := digit_not_pyWs d hd
  have hdd : (d == '.') = false := digit_beq_dot_false d hd
  have h2 : ds.takeWhile Char.isDigit = ds := List.takeWhile_eq_self_iff.mpr hds
  have h3 : ds.dropWhile Char.isDigit = [] := List.dropWhile_eq_nil_iff.mpr (fun a ha => hds a ha)
  simp [tryBill, tryBillAlts, billAlts, matchUnits, eatLetters, eatDot, eatWs, finishBill,
    wordStopOk, List.takeWhile_cons, List.dropWhile_cons, pyWs_space, pyWs_H, pyWs_R, pyWs_S,
    pyWs_J, pyWs_C, pyWs_O, pyWs_N, pyWs_E, pyWs_dot, hpd, hdd, hd, h2, h3]

theorem tryBill_hr_dot_sp_sp (d : Char) (ds : List Char) (hd : d.isDigit = true)
    (hds : ∀ c ∈ ds, c.isDigit = true) :
    tryBill (['H', '.', ' ', 'R', '.', ' '] ++ d :: ds) = some (['H', '.', ' ', 'R', '.'], d :: ds, []) := by
  have hpd : pyWs d = false := digit_not_pyWs d hd
  have hdd : (d == '.') = false := digit_beq_dot_false d hd
  have h2 : ds.takeWhile Char.isDigit = ds := List.takeWhile_eq_self_iff.mpr hds
  have h3 : ds.dropWhile Char.isDigit = [] := List.dropWhile_eq_nil_iff.mpr (fun a ha => hds a ha)
  simp [tryBill, tryBillAlts, billAlts, matchUnits, eatLetters, eatDot, eatWs, finishBill,
    wordStopOk, List.takeWhile_cons, List.dropWhile_cons, pyWs_space, pyWs_H, pyWs_R, pyWs_S,
    pyWs_J, pyWs_C, pyWs_O, pyWs_N, pyWs_E, pyWs_dot, hpd, hdd, hd, h2, h3]

theorem tryBill_hr_space_sp (d : Char) (ds : List Char) (hd : d.isDigit = true)
    (hds : ∀ c ∈ ds, c.isDigit = true) :
    tryBill (['H', ' ', 'R', ' '] ++ d :: ds) = some (['H', ' ', 'R'], d :: ds, []) := by
  have hpd : pyWs d = false := digit_not_pyWs d hd
  have hdd : (d == '.') = false := digit_beq_dot_false d hd
  have h2 : ds.takeWhile Char.isDigit = ds := List.takeWhile_eq_self_iff.mpr hds
  have h3 : ds.dropWhile Char.isDigit = [] := List.dropWhile_eq_nil_iff.mpr (fun a ha => hds a ha)
  simp [tryBill, tryBillAlts, billAlts, matchUnits, eatLetters, eatDot, eatWs, finishBill,
    wordStopOk, List.takeWhile_cons, List.dropWhile_cons, pyWs_space, pyWs_H, pyWs_R, pyWs_S,
    pyWs_J, pyWs_C, pyWs_O, pyWs_N, pyWs_E, pyWs_dot, hpd, hdd, hd, h2, h3]

theorem tryBill_hr_plain (d : Char) (ds : List Char) (hd : d.isDigit = true)
    (hds : ∀ c ∈ ds, c.isDigit = true) :
    tryBill (['H', 'R'] ++ d :: ds) = some (['H', 'R'], d :: ds, []) := by
  have hpd : pyWs d = false := digit_not_pyWs d hd
  have hdd : (d == '.') = false := digit_beq_dot_false d hd
  have h2 : ds.takeWhile Char.isDigit = ds := List.takeWhile_eq_self_iff.mpr hds
  have h3 : ds.dropWhile Char.isDigit = [] := List.dropWhile_eq_nil_iff.mpr (fun a ha => hds a ha)
  simp [tryBill, tryBillAlts, billAlts, matchUnits, eatLetters, eatDot, eatWs, finishBill,
    wordStopOk, List.takeWhile_cons, List.dropWhile_cons, pyWs_space, pyWs_H, pyWs_R, pyWs_S,
    pyWs_J, pyWs_C, pyWs_O, pyWs_N, pyWs_E, pyWs_dot, hpd, hdd, hd, h2, h3]

theorem tryBill_s_dot_sp (d : Char) (ds : List Char) (hd : d.isDigit = true)
    (hds : ∀ c ∈ ds, c.isDigit = true) :
    tryBill (['S', '.', ' '] ++ d :: ds) = some (['S', '.'], d :: ds, []) := by
  have hpd : pyWs d = false := digit_not_pyWs d hd
  have hdd : (d == '.') = false := digit_beq_dot_false d hd
  have h2 : ds.takeWhile Char.isDigit = ds := List.takeWhile_eq_self_iff.mpr hds
  have h3 : ds.dropWhile Char.isDigit = [] := List.dropWhile_eq_nil_iff.mpr (fun a ha => hds a ha)
  simp [tryBill, tryBillAlts, billAlts, matchUnits, eatLetters, eatDot, eatWs, finishBill,
    wordStopOk, List.takeWhile_cons, List.dropWhile_cons, pyWs_space, pyWs_H, pyWs_R, pyWs_S,
    pyWs_J, pyWs_C, pyWs_O, pyWs_N, pyWs_E, pyWs_dot, hpd, hdd, hd, h2, h3]

theorem tryBill_s_plain_sp (d : Char) (ds : List Char) (hd : d.isDigit = true)
    (hds : ∀ c ∈ ds, c.isDigit = true) :
    tryBill (['S', ' '] ++ d :: ds) = some (['S'], d :: ds, []) := by
  have hpd : pyWs d = false := digit_not_pyWs d hd
  have hdd : (d == '.') = false := digit_beq_dot_false d hd
  have h2 : ds.takeWhile Char.isDigit = ds := List.takeWhile_eq_self_iff.mpr hds
  have h3 : ds.dropWhile Char.isDigit = [] := List.dropWhile_eq_nil_iff.mpr (fun a ha => hds a ha)
  simp [tryBill, tryBillAlts, billAlts, matchUnits, eatLetters, eatDot, eatWs, finishBill,
    wordStopOk, List.takeWhile_cons, List.dropWhile_cons, pyWs_space, pyWs_H, pyWs_R, pyWs_S,
    pyWs_J, pyWs_C, pyWs_O, pyWs_N, pyWs_E, pyWs_dot, hpd, hdd, hd, h2, h3]

theorem tryBill_s_plain (d : Char) (ds : List Char) (hd : d.isDigit = true)
    (hds : ∀ c ∈ ds, c.isDigit = true) :
    tryBill (['S'] ++ d :: ds) = some (['S'], d :: ds, []) := by
  have hpd : pyWs d = false := digit_not_pyWs d hd
  have hdd : (d == '.') = false := digit_beq_dot_false d hd
  have h2 : ds.takeWhile Char.isDigit = ds := List.takeWhile_eq_self_iff.mpr hds
  have h3 : ds.dropWhile Char.isDigit = [] := List.dropWhile_eq_nil_iff.mpr (fun a ha => hds a ha)
  simp [tryBill, tryBillAlts, billAlts, matchUnits, eatLetters, eatDot, eatWs, finishBill,
    wordStopOk, List.takeWhile_cons, List.dropWhile_cons, pyWs_space, pyWs_H, pyWs_R, pyWs_S,
    pyWs_J, pyWs_C, pyWs_O, pyWs_N, pyWs_E, pyWs_dot, hpd, hdd, hd, h2, h3]

theorem tryBill_hjres_dots_sp (d : Char) (ds : List Char) (hd : d.isDigit = true)
    (hds : ∀ c ∈ ds, c.isDigit = true) :
    tryBill (['H', '.', 'J', '.', 'R', 'e', 's', '.', ' '] ++ d :: ds) = some (['H', '.', 'J', '.', 'R', 'e', 's', '.'], d :: ds, []) := by
  have hpd : pyWs d = false := digit_not_pyWs d hd
  have hdd : (d == '.') = false := digit_beq_dot_false d hd
  have h2 : ds.takeWhile Char.isDigit = ds := List.takeWhile_eq_self_iff.mpr hds
  have h3 : ds.dropWhile Char.isDigit = [] := List.dropWhile_eq_nil_iff.mpr (fun a ha => hds a ha)
  simp [tryBill, tryBillAlts, billAlts, matchUnits, eatLetters, eatDot, eatWs, finishBill,
    wordStopOk, List.takeWhile_cons, List.dropWhile_cons, pyWs_space, pyWs_H, pyWs_R, pyWs_S,
    pyWs_J, pyWs_C, pyWs_O, pyWs_N, pyWs_E, pyWs_dot, hpd, hdd, hd, h2, h3]

theorem tryBill_hjres_plain_sp (d : Char) (ds : List Char) (hd : d.isDigit = true)
    (hds : ∀ c ∈ ds, c.isDigit = true) :
    tryBill (['H', 'J', 'R', 'E', 'S', ' '] ++ d :: ds) = some (['H', 'J', 'R', 'E', 'S'], d :: ds, []) := by
  have hpd : pyWs d = false := digit_not_pyWs d hd
  have hdd : (d == '.') = false := digit_beq_dot_false d hd
  have h2 : ds.takeWhile Char.isDigit = ds := List.takeWhile_eq_self_iff.mpr hds
  have h3 : ds.dropWhile Char.isDigit = [] := List.dropWhile_eq_nil_iff.mpr (fun a ha => hds a ha)
  simp [tryBill, tryBillAlts, billAlts, matchUnits, eatLetters, eatDot, eatWs, finishBill,
    wordStopOk, List.takeWhile_cons, List.dropWhile_cons, pyWs_space, pyWs_H, pyWs_R, pyWs_S,
    pyWs_J, pyWs_C, pyWs_O, pyWs_N, pyWs_E, pyWs_dot, hpd, hdd, hd, h2, h3]

theorem tryBill_hjres_dot_sp_sp (d : Char) (ds : List Char) (hd : d.isDigit = true)
    (hds : ∀ c ∈ ds, c.isDigit = true) :
    tryBill (['H', '.', ' ', 'J', '.', ' ', 'R', 'e', 's', '.', ' '] ++ d :: ds) = some (['H', '.', ' ', 'J', '.', ' ', 'R', 'e', 's', '.'], d :: ds, []) := by
  have hpd : pyWs d = false := digit_not_pyWs d hd
  have hdd : (d == '.') = false := digit_beq_dot_false d hd
  have h2 : ds.takeWhile Char.isDigit = ds := List.takeWhile_eq_self_iff.mpr hds
  have h3 : ds.dropWhile Char.isDigit = [] := List.dropWhile_eq_nil_iff.mpr (fun a ha => hds a ha)
  simp [tryBill, tryBillAlts, billAlts, matchUnits, eatLetters, eatDot, eatWs, finishBill,
    wordStopOk, List.takeWhile_cons, List.dropWhile_cons, pyWs_space, pyWs_H, pyWs_R, pyWs_S,
    pyWs_J, pyWs_C, pyWs_O, pyWs_N, pyWs_E, pyWs_dot, hpd, hdd, hd, h2, h3]

theorem tryBill_hjres_plain (d : Char) (ds : List Char) (hd : d.isDigit = true)
    (hds : ∀ c ∈ ds, c.isDigit = true) :
    tryBill (['H', 'J', 'R', 'E', 'S'] ++ d :: ds) = some (['H', 'J', 'R', 'E', 'S'], d :: ds, []) := by
  have hpd : pyWs d = false := digit_not_pyWs d hd
  have hdd : (d == '.') = false := digit_beq_dot_false d hd
  have h2 : ds.takeWhile Char.isDigit = ds := List.takeWhile_eq_self_iff.mpr hds
  have h3 : ds.dropWhile Char.isDigit = [] := List.dropWhile_eq_nil_iff.mpr (fun a ha => hds a ha)
  simp [tryBill, tryBillAlts, billAlts, matchUnits, eatLetters, eatDot, eatWs, finishBill,
    wordStopOk, List.takeWhile_cons, List.dropWhile_cons, pyWs_space, pyWs_H, pyWs_R, pyWs_S,
    pyWs_J, pyWs_C, pyWs_O, pyWs_N, pyWs_E, pyWs_dot, hpd, hdd, hd, h2, h3]

theorem tryBill_sjres_dots_sp (d : Char) (ds : List Char) (hd : d.isDigit = true)
    (hds : ∀ c ∈ ds, c.isDigit = true) :
    tryBill (['S', '.', 'J', '.', 'R', 'e', 's', '.', ' '] ++ d :: ds) = some (['S', '.', 'J', '.', 'R', 'e', 's', '.'], d :: ds, []) := by
  have hpd : pyWs d = false := digit_not_pyWs d hd
  have hdd : (d == '.') = false := digit_beq_dot_false d hd
  have h2 : ds.takeWhile Char.isDigit = ds := List.takeWhile_eq_self_iff.mpr hds
  have h3 : ds.dropWhile Char.isDigit = [] := List.dropWhile_eq_nil_iff.mpr (fun a ha => hds a ha)
  simp [tryBill, tryBillAlts, billAlts, matchUnits, eatLetters, eatDot, eatWs, finishBill,
    wordStopOk, List.takeWhile_cons, List.dropWhile_cons, pyWs_space, pyWs_H, pyWs_R, pyWs_S,
    pyWs_J, pyWs_C, pyWs_O, pyWs_N, pyWs_E, pyWs_dot, hpd, hdd, hd, h2, h3]

theorem tryBill_sjres_plain_sp (d : Char) (ds : List Char) (hd : d.isDigit = true)
    (hds : ∀ c ∈ ds, c.isDigit = true) :
    tryBill (['S', 'J', 'R', 'E', 'S', ' '] ++ d :: ds) = some (['S', 'J', 'R', 'E', 'S'], d :: ds, []) := by
  have hpd : pyWs d = false := digit_not_pyWs d hd
  have hdd : (d == '.') = false := digit_beq_dot_false d hd
  have h2 : ds.takeWhile Char.isDigit = ds := List.takeWhile_eq_self_iff.mpr hds
  have h3 : ds.dropWhile Char.isDigit = [] := List.dropWhile_eq_nil_iff.mpr (fun a ha => hds a ha)
  simp [tryBill, tryBillAlts, billAlts, matchUnits, eatLetters, eatDot, eatWs, finishBill,
    wordStopOk, List.takeWhile_cons, List.dropWhile_cons, pyWs_space, pyWs_H, pyWs_R, pyWs_S,
    pyWs_J, pyWs_C, pyWs_O, pyWs_N, pyWs_E, pyWs_dot, hpd, hdd, hd, h2, h3]

theorem tryBill_sjres_dot_sp_sp (d : Char) (ds : List Char) (hd : d.isDigit = true)
    (hds : ∀ c ∈ ds, c.isDigit = true) :
    tryBill (['S', '.', ' ', 'J', '.', ' ', 'R', 'e', 's', '.', ' '] ++ d :: ds) = some (['S', '.', ' ', 'J', '.', ' ', 'R', 'e', 's', '.'], d :: ds, []) := by
  have hpd : pyWs d = false := digit_not_pyWs d hd
  have hdd : (d == '.') = false := digit_beq_dot_false d hd
  have h2 : ds.takeWhile Char.isDigit = ds := List.takeWhile_eq_self_iff.mpr hds
  have h3 : ds.dropWhile Char.isDigit = [] := List.dropWhile_eq_nil_iff.mpr (fun a ha => hds a ha)
  simp [tryBill, tryBillAlts, billAlts, matchUnits, eatLetters, eatDot, eatWs, finishBill,
    wordStopOk, List.takeWhile_cons, List.dropWhile_cons, pyWs_space, pyWs_H, pyWs_R, pyWs_S,
    pyWs_J, pyWs_C, pyWs_O, pyWs_N, pyWs_E, pyWs_dot, hpd, hdd, hd, h2, h3]

theorem tryBill_sjres_plain (d : Char) (ds : List Char) (hd : d.isDigit = true)
    (hds : ∀ c ∈ ds, c.isDigit = true) :
    tryBill (['S', 'J', 'R', 'E', 'S'] ++ d :: ds) = some (['S', 'J', 'R', 'E', 'S'], d :: ds, []) := by
  have hpd : pyWs d = false := digit_not_pyWs d hd
  have hdd : (d == '.') = false := digit_beq_dot_false d hd
  have h2 : ds.takeWhile Char.isDigit = ds := List.takeWhile_eq_self_iff.mpr hds
  have h3 : ds.dropWhile Char.isDigit = [] := List.dropWhile_eq_nil_iff.mpr (fun a ha => hds a ha)
  simp [tryBill, tryBillAlts, billAlts, matchUnits, eatLetters, eatDot, eatWs, finishBill,
    wordStopOk, List.takeWhile_cons, List.dropWhile_cons, pyWs_space, pyWs_H, pyWs_R, pyWs_S,
    pyWs_J, pyWs_C, pyWs_O, pyWs_N, pyWs_E, pyWs_dot, hpd, hdd, hd, h2, h3]

theorem tryBill_hconres_dots_sp (d : Char) (ds : List Char) (hd : d.isDigit = true)
    (hds : ∀ c ∈ ds, c.isDigit = true) :
    tryBill (['H', '.', 'C', 'o', 'n', '.', 'R', 'e', 's', '.', ' '] ++ d :: ds) = some (['H', '.', 'C', 'o', 'n', '.', 'R', 'e', 's', '.'], d :: ds, []) := by
  have hpd : pyWs d = false := digit_not_pyWs d hd
  have hdd : (d == '.') = false := digit_beq_dot_false d hd
  have h2 : ds.takeWhile Char.isDigit = ds := List.takeWhile_eq_self_iff.mpr hds
  have h3 : ds.dropWhile Char.isDigit = [] := List.dropWhile_eq_nil_iff.mpr (fun a ha => hds a ha)
  simp [tryBill, tryBillAlts, billAlts, matchUnits, eatLetters, eatDot, eatWs, finishBill,
    wordStopOk, List.takeWhile_cons, List.dropWhile_cons, pyWs_space, pyWs_H, pyWs_R, pyWs_S,
    pyWs_J, pyWs_C, pyWs_O, pyWs_N, pyWs_E, pyWs_dot, hpd, hdd, hd, h2, h3]

theorem tryBill_hconres_plain_sp (d : Char) (ds : List Char) (hd : d.isDigit = true)
    (hds : ∀ c ∈ ds, c.isDigit = true) :
    tryBill (['H', 'C', 'O', 'N', 'R', 'E', 'S', ' '] ++ d :: ds) = some (['H', 'C', 'O', 'N', 'R', 'E', 'S'], d :: ds, []) := by
  have hpd : pyWs d = false := digit_not_pyWs d hd
  have hdd : (d == '.') = false := digit_beq_dot_false d hd
  have h2 : ds.takeWhile Char.isDigit = ds := List.takeWhile_eq_self_iff.mpr hds
  have h3 : ds.dropWhile Char.isDigit = [] := List.dropWhile_eq_nil_iff.mpr (fun a ha => hds a ha)
  simp [tryBill, tryBillAlts, billAlts, matchUnits, eatLetters, eatDot, eatWs, finishBill,
    wordStopOk, List.takeWhile_cons, List.dropWhile_cons, pyWs_space, pyWs_H, pyWs_R, pyWs_S,
    pyWs_J, pyWs_C, pyWs_O, pyWs_N, pyWs_E, pyWs_dot, hpd, hdd, hd, h2, h3]

theorem tryBill_hconres_dot_sp_sp (d : Char) (ds : List Char) (hd : d.isDigit = true)
    (hds : ∀ c ∈ ds, c.isDigit = true) :
    tryBill (['H', '.', ' ', 'C', 'o', 'n', '.', ' ', 'R', 'e', 's', '.', ' '] ++ d :: ds) = some (['H', '.', ' ', 'C', 'o', 'n', '.', ' ', 'R', 'e', 's', '.'], d :: ds, []) := by
  have hpd : pyWs d = false := digit_not_pyWs d hd
  have hdd : (d == '.') = false := digit_beq_dot_false d hd
  have h2 : ds.takeWhile Char.isDigit = ds := List.takeWhile_eq_self_iff.mpr hds
  have h3 : ds.dropWhile Char.isDigit = [] := List.dropWhile_eq_nil_iff.mpr (fun a ha => hds a ha)
  simp [tryBill, tryBillAlts, billAlts, matchUnits, eatLetters, eatDot, eatWs, finishBill,
    wordStopOk, List.takeWhile_cons, List.dropWhile_cons, pyWs_space, pyWs_H, pyWs_R, pyWs_S,
    pyWs_J, pyWs_C, pyWs_O, pyWs_N, pyWs_E, pyWs_dot, hpd, hdd, hd, h2, h3]

theorem tryBill_sconres_dots_sp (d : Char) (ds : List Char) (hd : d.isDigit = true)
    (hds : ∀ c ∈ ds, c.isDigit = true) :
    tryBill (['S', '.', 'C', 'o', 'n', '.', 'R', 'e', 's', '.', ' '] ++ d :: ds) = some (['S', '.', 'C', 'o', 'n', '.', 'R', 'e', 's', '.'], d :: ds, []) := by
  have hpd : pyWs d = false := digit_not_pyWs d hd
  have hdd : (d == '.') = false := digit_beq_dot_false d hd
  have h2 : ds.takeWhile Char.isDigit = ds := List.takeWhile_eq_self_iff.mpr hds
  have h3 : ds.dropWhile Char.isDigit = [] := List.dropWhile_eq_nil_iff.mpr (fun a ha => hds a ha)
  simp [tryBill, tryBillAlts, billAlts, matchUnits, eatLetters, eatDot, eatWs, finishBill,
    wordStopOk, List.takeWhile_cons, List.dropWhile_cons, pyWs_space, pyWs_H, pyWs_R, pyWs_S,
    pyWs_J, pyWs_C, pyWs_O, pyWs_N, pyWs_E, pyWs_dot, hpd, hdd, hd, h2, h3]

theorem tryBill_sconres_plain_sp (d : Char) (ds : List Char) (hd : d.isDigit = true)
    (hds : ∀ c ∈ ds, c.isDigit = true) :
    tryBill (['S', 'C', 'O', 'N', 'R', 'E', 'S', ' '] ++ d :: ds) = some (['S', 'C', 'O', 'N', 'R', 'E', 'S'], d :: ds, []) := by
  have hpd : pyWs d = false := digit_not_pyWs d hd
  have hdd : (d == '.') = false := digit_beq_dot_false d hd
  have h2 : ds.takeWhile Char.isDigit = ds := List.takeWhile_eq_self_iff.mpr hds
  have h3 : ds.dropWhile Char.isDigit = [] := List.dropWhile_eq_nil_iff.mpr (fun a ha => hds a ha)
  simp [tryBill, tryBillAlts, billAlts, matchUnits, eatLetters, eatDot, eatWs, finishBill,
    wordStopOk, List.takeWhile_cons, List.dropWhile_cons, pyWs_space, pyWs_H, pyWs_R, pyWs_S,
    pyWs_J, pyWs_C, pyWs_O, pyWs_N, pyWs_E, pyWs_dot, hpd, hdd, hd, h2, h3]

theorem tryBill_sconres_dot_sp_sp (d : Char) (ds : List Char) (hd : d.isDigit = true)
    (hds : ∀ c ∈ ds, c.isDigit = true) :
    tryBill (['S', '.', ' ', 'C', 'o', 'n', '.', ' ', 'R', 'e', 's', '.', ' '] ++ d :: ds) = some (['S', '.', ' ', 'C', 'o', 'n', '.', ' ', 'R', 'e', 's', '.'], d :: ds, []) := by
  have hpd : pyWs d = false := digit_not_pyWs d hd
  have hdd : (d == '.') = false := digit_beq_dot_false d hd
  have h2 : ds.takeWhile Char.isDigit = ds := List.takeWhile_eq_self_iff.mpr hds
  have h3 : ds.dropWhile Char.isDigit = [] := List.dropWhile_eq_nil_iff.mpr (fun a ha => hds a ha)
  simp [tryBill, tryBillAlts, billAlts, matchUnits, eatLetters, eatDot, eatWs, finishBill,
    wordStopOk, List.takeWhile_cons, List.dropWhile_cons, pyWs_space, pyWs_H, pyWs_R, pyWs_S,
    pyWs_J, pyWs_C, pyWs_O, pyWs_N, pyWs_E, pyWs_dot, hpd, hdd, hd, h2, h3]

/-- Claim C4 (amended): for each of the six vehicle types and every number
(a nonempty run of decimal digits), the spellings of the same citation with
or without periods and with or without internal ASCII spaces are all
normalized by the detector to the identical canonical identifier
`<TYPE><NUMBER>`.  (Whitespace characters other than the space, such as a
tab, are matched by the pattern but survive normalization — see the
counterexample theorem.) -/
theorem detect_period_space_invariance (d : Char) (ds : List Char)
    (hd : d.isDigit = true) (hds : ∀ c ∈ ds, c.isDigit = true) :
    detectCore (['H', '.', 'R', '.', ' '] ++ d :: ds) [] = [['H', 'R'] ++ d :: ds] ∧
    detectCore (['H', 'R', ' '] ++ d :: ds) [] = [['H', 'R'] ++ d :: ds] ∧
    detectCore (['H', '.', ' ', 'R', '.', ' '] ++ d :: ds) [] = [['H', 'R'] ++ d :: ds] ∧
    detectCore (['H', ' ', 'R', ' '] ++ d :: ds) [] = [['H', 'R'] ++ d :: ds] ∧
    detectCore (['H', 'R'] ++ d :: ds) [] = [['H', 'R'] ++ d :: ds] ∧
    detectCore (['S', '.', ' '] ++ d :: ds) [] = [['S'] ++ d :: ds] ∧
    detectCore (['S', ' '] ++ d :: ds) [] = [['S'] ++ d :: ds] ∧
    detectCore (['S'] ++ d :: ds) [] = [['S'] ++ d :: ds] ∧
    detectCore (['H', '.', 'J', '.', 'R', 'e', 's', '.', ' '] ++ d :: ds) [] = [['H', 'J', 'R', 'E', 'S'] ++ d :: ds] ∧
    detectCore (['H', 'J', 'R', 'E', 'S', ' '] ++ d :: ds) [] = [['H', 'J', 'R', 'E', 'S'] ++ d :: ds] ∧
    detectCore (['H', '.', ' ', 'J', '.', ' ', 'R', 'e', 's', '.', ' '] ++ d :: ds) [] = [['H', 'J', 'R', 'E', 'S'] ++ d :: ds] ∧
    detectCore (['H', 'J', 'R', 'E', 'S'] ++ d :: ds) [] = [['H', 'J', 'R', 'E', 'S'] ++ d :: ds] ∧
    detectCore (['S', '.', 'J', '.', 'R', 'e', 's', '.', ' '] ++ d :: ds) [] = [['S', 'J', 'R', 'E', 'S'] ++ d :: ds] ∧
    detectCore (['S', 'J', 'R', 'E', 'S', ' '] ++ d :: ds) [] = [['S', 'J', 'R', 'E', 'S'] ++ d :: ds] ∧
    detectCore (['S', '.', ' ', 'J', '.', ' ', 'R', 'e', 's', '.', ' '] ++ d :: ds) [] = [['S', 'J', 'R', 'E', 'S'] ++ d :: ds] ∧
    detectCore (['S', 'J', 'R', 'E', 'S'] ++ d :: ds) [] = [['S', 'J', 'R', 'E', 'S'] ++ d :: ds] ∧
    detectCore (['H', '.', 'C', 'o', 'n', '.', 'R', 'e', 's', '.', ' '] ++ d :: ds) [] = [['H', 'C', 'O', 'N', 'R', 'E', 'S'] ++ d :: ds] ∧
    detectCore (['H', 'C', 'O', 'N', 'R', 'E', 'S', ' '] ++ d :: ds) [] = [['H', 'C', 'O', 'N', 'R', 'E', 'S'] ++ d :: ds] ∧
    detectCore (['H', '.', ' ', 'C', 'o', 'n', '.', ' ', 'R', 'e', 's', '.', ' '] ++ d :: ds) [] = [['H', 'C', 'O', 'N', 'R', 'E', 'S'] ++ d :: ds] ∧
    detectCore (['S', '.', 'C', 'o', 'n', '.', 'R', 'e', 's', '.', ' '] ++ d :: ds) [] = [['S', 'C', 'O', 'N', 'R', 'E', 'S'] ++ d :: ds] ∧
    detectCore (['S', 'C', 'O', 'N', 'R', 'E', 'S', ' '] ++ d :: ds) [] = [['S', 'C', 'O', 'N', 'R', 'E', 'S'] ++ d :: ds] ∧
    detectCore (['S', '.', ' ', 'C', 'o', 'n', '.', ' ', 'R', 'e', 's', '.', ' '] ++ d :: ds) [] = [['S', 'C', 'O', 'N', 'R', 'E', 'S'] ++ d :: ds] :=
  ⟨    detectCore_single _ _ _ (tryBill_hr_dotsp d ds hd hds),
    detectCore_single _ _ _ (tryBill_hr_plain_sp d ds hd hds),
    detectCore_single _ _ _ (tryBill_hr_dot_sp_sp d ds hd hds),
    detectCore_single _ _ _ (tryBill_hr_space_sp d ds hd hds),
    detectCore_single _ _ _ (tryBill_hr_plain d ds hd hds),
    detectCore_single _ _ _ (tryBill_s_dot_sp d ds hd hds),
    detectCore_single _ _ _ (tryBill_s_plain_sp d ds hd hds),
    detectCore_single _ _ _ (tryBill_s_plain d ds hd hds),
    detectCore_single _ _ _ (tryBill_hjres_dots_sp d ds hd hds),
    detectCore_single _ _ _ (tryBill_hjres_plain_sp d ds hd hds),
    detectCore_single _ _ _ (tryBill_hjres_dot_sp_sp d ds hd hds),
    detectCore_single _ _ _ (tryBill_hjres_plain d ds hd hds),
    detectCore_single _ _ _ (tryBill_sjres_dots_sp d ds hd hds),
    detectCore_single _ _ _ (tryBill_sjres_plain_sp d ds hd hds),
    detectCore_single _ _ _ (tryBill_sjres_dot_sp_sp d ds hd hds),
    detectCore_single _ _ _ (tryBill_sjres_plain d ds hd hds),
    detectCore_single _ _ _ (tryBill_hconres_dots_sp d ds hd hds),
    detectCore_single _ _ _ (tryBill_hconres_plain_sp d ds hd hds),
    detectCore_single _ _ _ (tryBill_hconres_dot_sp_sp d ds hd hds),
    detectCore_single _ _ _ (tryBill_sconres_dots_sp d ds hd hds),
    detectCore_single _ _ _ (tryBill_sconres_plain_sp d ds hd hds),
    detectCore_single _ _ _ (tryBill_sconres_dot_sp_sp d ds hd hds)⟩

/-- Claim C4 counterexample: the spelling `"H.\tR. 2988"` (internal
whitespace in the form of a tab) matches the citation pattern but is
normalized to `"H\tR2988"`, a different identifier than the `"HR2988"`
produced for the space-separated spelling of the same citation, so not
all internal-whitespace spellings collapse to the same canonical id. -/
theorem detect_tab_not_normalized :
    detect_set "H.\tR. 2988" none = ["H\tR2988"] ∧
    detect_set "H R 2988" none = ["HR2988"] ∧
    ("H\tR2988" : String) ≠ "HR2988" := by decide

/-- Witness for the amended C4 theorem at the concrete number 2988. -/
theorem detect_period_space_invariance_witness :
    ('2'.isDigit = true) ∧ (∀ c ∈ ("988".data), c.isDigit = true) ∧
    detectCore (['H', '.', 'R', '.', ' '] ++ '2' :: "988".data) [] =
      [['H', 'R'] ++ '2' :: "988".data] :=
  ⟨by decide, by decide,
    (detect_period_space_invariance '2' "988".data (by decide) (by decide)).1⟩

/-! ### Loop lemmas for _parse_speeches -/

theorem parseLoop_eq_take (cs : List Char) (ch : Chamber) (d : PyDate) :
    ∀ (ms : List SMatch) (count : Nat), count < 50 →
    parseLoop cs ch d ms count = (parseLoopNoCap cs ch d ms).take (50 - count) := by
  intro ms
  induction ms with
  | nil => intro count _; simp [parseLoop, parseLoopNoCap]
  | cons m rest ih =>
    intro count hc
    simp only [parseLoop, parseLoopNoCap]
    split
    · next h => exact ih count hc
    · next h =>
      split
      · next h50 =>
        have hc49 : count = 49 := by omega
        subst hc49
        simp
      · next h50 =>
        have harith : 50 - count = (50 - (count + 1)) + 1 := by omega
        rw [harith, List.take_succ_cons, ih (count + 1) (by omega)]

theorem parseLoop_mem (cs : List Char) (ch : Chamber) (d : PyDate) :
    ∀ (ms : List SMatch) (count : Nat) (s : SpeechDict), s ∈ parseLoop cs ch d ms count →
    ∃ m ∈ ms, ∃ content0 : List Char,
      ¬ content0.length < 100 ∧ s = buildSpeech cs ch d m content0 := by
  intro ms
  induction ms with
  | nil => intro count s hs; simp [parseLoop] at hs
  | cons m rest ih =>
    intro count s hs
    simp only [parseLoop] at hs
    split at hs
    · next h =>
      obtain ⟨m', hm', c0, hc0, hs'⟩ := ih count s hs
      exact ⟨m', List.mem_cons_of_mem _ hm', c0, hc0, hs'⟩
    · next h =>
      split at hs
      · next h50 =>
        rw [List.mem_singleton] at hs
        exact ⟨m, List.mem_cons_self _ _, _, h, hs⟩
      · next h50 =>
        rw [List.mem_cons] at hs
        rcases hs with hs | hs
        · exact ⟨m, List.mem_cons_self _ _, _, h, hs⟩
        · obtain ⟨m', hm', c0, hc0, hs'⟩ := ih (count + 1) s hs
          exact ⟨m', List.mem_cons_of_mem _ hm', c0, hc0, hs'⟩

/-- Claim C2: every speech turn emitted by `parse_speeches` has a
content of at least 100 and at most 10,000 characters (the 100-char
floor is checked on the stripped content before the 10,000-char
truncation, which can only shorten it). -/
theorem parse_speeches_content_bounds :
    ∀ (text : String) (ch : Chamber) (d : PyDate) (s : SpeechDict),
      s ∈ parse_speeches text ch d →
      100 ≤ s.content.length ∧ s.content.length ≤ 10000 := by
  intro text ch d s hs
  simp only [parse_speeches] at hs
  by_cases he : text.data.isEmpty
  · rw [if_pos he] at hs
    simp at hs
  · rw [if_neg he] at hs
    obtain ⟨m, _, c0, hc0, rfl⟩ := parseLoop_mem _ _ _ _ _ _ hs
    have hcon : (buildSpeech text.data ch d m c0).content = String.mk (c0.take 10000) := rfl
    rw [hcon]
    have hlen : (String.mk (c0.take 10000)).length = (c0.take 10000).length := rfl
    rw [hlen, List.length_take]
    omega

/-- Witness for C2 at a concrete document with one emitted turn. -/
theorem parse_speeches_content_bounds_witness :
    spAdams ∈ parse_speeches txtAdams Chamber.house dateX ∧
    (100 ≤ spAdams.content.length ∧ spAdams.content.length ≤ 10000) :=
  ⟨by decide,
    parse_speeches_content_bounds txtAdams Chamber.house dateX spAdams (by decide)⟩

/-- Claim C3: the segmenter emits at most 50 turns: the capped parse is
exactly the 50-element prefix of the uncapped document-order parse (so
turns come in document order and scanning stops at the cap), and its
length is therefore at most 50. -/
theorem parse_speeches_cap :
    ∀ (text : String) (ch : Chamber) (d : PyDate),
      parse_speeches text ch d = (parse_nocap text ch d).take 50 ∧
      (parse_speeches text ch d).length ≤ 50 := by
  intro text ch d
  have h : parse_speeches text ch d = (parse_nocap text ch d).take 50 := by
    simp only [parse_speeches, parse_nocap]
    by_cases he : text.data.isEmpty
    · rw [if_pos he, if_pos he]
      rfl
    · rw [if_neg he, if_neg he]
      simpa using parseLoop_eq_take text.data ch d
        (speakerScan text.data.length 0 none text.data) 0 (by norm_num)
  refine ⟨h, ?_⟩
  rw [h, List.length_take]
  omega

/-- Claim C10: for every emitted turn, the stored state code is exactly
the first two characters of the captured place name, upper-cased (absent
when no `of`-clause was captured); concretely "of Texas" yields "TE",
"of Alaska" yields "AL", "of Ohio" yields "OH", and a turn without the
clause stores nothing. -/
theorem parse_speeches_state_code :
    (∀ (text : String) (ch : Chamber) (d : PyDate) (s : SpeechDict),
      s ∈ parse_speeches text ch d →
      ∃ m ∈ speakerScan text.data.length 0 none text.data,
        s.speaker_state = if m.state.isEmpty then none
          else some (String.mk ((m.state.take 2).map Char.toUpper))) ∧
    (parse_speeches txtTexas Chamber.house dateX).map (fun s => s.speaker_state) = [some "TE"] ∧
    (parse_speeches txtAlaska Chamber.house dateX).map (fun s => s.speaker_state) = [some "AL"] ∧
    (parse_speeches txtOhioB Chamber.house dateX).map (fun s => s.speaker_state) = [some "OH"] ∧
    (parse_speeches txtAdams Chamber.house dateX).map (fun s => s.speaker_state) = [none] := by
  refine ⟨?_, by decide, by decide, by decide, by decide⟩
  intro text ch d s hs
  simp only [parse_speeches] at hs
  by_cases he : text.data.isEmpty
  · rw [if_pos he] at hs
    simp at hs
  · rw [if_neg he] at hs
    obtain ⟨m, hm, c0, _, rfl⟩ := parseLoop_mem _ _ _ _ _ _ hs
    exact ⟨m, hm, rfl⟩

/-- Witness for C10's universally quantified part at a concrete turn. -/
theorem parse_speeches_state_code_witness :
    spTexas ∈ parse_speeches txtTexas Chamber.house dateX ∧
    ∃ m ∈ speakerScan txtTexas.data.length 0 none txtTexas.data,
      spTexas.speaker_state = if m.state.isEmpty then none
        else some (String.mk ((m.state.take 2).map Char.toUpper)) :=
  ⟨by decide,
    parse_speeches_state_code.1 txtTexas Chamber.house dateX spTexas (by decide)⟩

/-- Claim C1 (code-bug evidence): `detect_bill_references` returns
`list(set(...))`.  On a text whose earliest citation is `S. 1`, the set
contents in source order are `["S1", "HR2"]`; reversing is an admissible
set-iteration order (it is a permutation of the contents), and under it
the first element of the returned list — the value `_speech_dict_to_model`
stores as `related_bill_id` — is `"HR2"`, not the source-earliest `"S1"`. -/
theorem detect_order_not_source_order :
    detect_set txtC1 none = ["S1", "HR2"] ∧
    (detect_bill_references List.reverse txtC1 none).Perm (detect_set txtC1 none) ∧
    (detect_bill_references List.reverse txtC1 none).head? = some "HR2" ∧
    (speech_dict_to_model List.reverse
      { speaker_name := "Mr. A", speaker_state := none, title := none,
        content := txtC1, chamber := Chamber.house,
        speech_date := ⟨2025, 1, 1⟩ }).related_bill_id = some "HR2" := by
  decide

/-- Claim C7 counterexample: resolution is not case-insensitive: with a
store holding bill (hr, 2988), `"HR2988"` resolves but `"hr2988"` does
not even parse, so the two do not yield the same outcome. -/
theorem lookup_not_case_insensitive :
    parseBillRef "HR2988" = some ("HR", 2988) ∧
    parseBillRef "hr2988" = none ∧
    lookup_bill_by_reference findHr "HR2988" = some 7 ∧
    lookup_bill_by_reference findHr "hr2988" = none := by
  decide

/-- Claim C7 (amended): identifier parsing is case-sensitive: the type
prefix must be upper-case `[A-Z]+` (it is lower-cased only afterwards,
for the store lookup); an identifier starting with a non-upper-case
character fails to parse and resolves to nothing, and a successfully
parsed identifier delegates to the lookup with the lower-cased type. -/
theorem lookup_case_sensitive :
    (∀ (find : String → Nat → Option Nat) (ref : String) (c : Char) (rest : List Char),
      ref.data = c :: rest → c.isUpper = false →
      lookup_bill_by_reference find ref = none) ∧
    (∀ (find : String → Nat → Option Nat) (ref : String) (t : String) (n : Nat),
      parseBillRef ref = some (t, n) →
      lookup_bill_by_reference find ref = find (strLower t) n) ∧
    lookup_bill_by_reference findHr "HR2988" = some 7 ∧
    lookup_bill_by_reference findHr "hr2988" = none ∧
    lookup_bill_by_reference findHr "Hr2988" = none := by
  refine ⟨?_, ?_, by decide, by decide, by decide⟩
  · intro find ref c rest hdata hup
    unfold lookup_bill_by_reference parseBillRef
    rw [hdata]
    simp [List.takeWhile_cons, hup]
  · intro find ref t n hp
    unfold lookup_bill_by_reference
    rw [hp]

/-- Witness for the amended C7 theorem on the lower-case identifier. -/
theorem lookup_case_sensitive_witness :
    ("hr2988".data = 'h' :: "r2988".data) ∧ (Char.isUpper 'h' = false) ∧
    lookup_bill_by_reference findHr "hr2988" = none :=
  ⟨by decide, by decide,
    lookup_case_sensitive.1 findHr "hr2988" 'h' "r2988".data (by decide) (by decide)⟩

/-- Claim C8: resolution returns an absent result — never an error —
both when the identifier does not match the `<TYPE><NUMBER>` shape and
when the lookup finds no matching record.  (The resolver is a total
function, so no run raises.) -/
theorem lookup_unresolved_total :
    ∀ (find : String → Nat → Option Nat) (ref : String),
      (parseBillRef ref = none → lookup_bill_by_reference find ref = none) ∧
      (∀ t n, parseBillRef ref = some (t, n) → find (strLower t) n = none →
        lookup_bill_by_reference find ref = none) := by
  intro find ref
  constructor
  · intro h
    unfold lookup_bill_by_reference
    rw [h]
  · intro t n h hf
    unfold lookup_bill_by_reference
    rw [h]
    exact hf

/-- Witness for C8: the spec scenario `resolve("HR2988", lookup)` with a
store holding no matching record returns the absent result. -/
theorem lookup_unresolved_total_witness :
    parseBillRef "HR2988" = some ("HR", 2988) ∧
    lookup_bill_by_reference (fun _ _ => (none : Option Nat)) "HR2988" = none :=
  ⟨by decide,
    (lookup_unresolved_total (fun _ _ => none) "HR2988").2 "HR" 2988 (by decide) rfl⟩

/-- Claim C6 counterexample: on the scenario input the single emitted
turn's speaker name is `"Mr. SMITH (Ohio)"` — the code parenthesises the
full captured place name, not the two-letter code — so it is not
`"Mr. SMITH (OH)"` as claimed. -/
theorem scenario_speaker_name_full_state :
    (parse_speeches txtOhio Chamber.house ⟨2025, 10, 12⟩).map
      (fun s => s.speaker_name) = ["Mr. SMITH (Ohio)"] ∧
    ("Mr. SMITH (Ohio)" : String) ≠ "Mr. SMITH (OH)" := by
  decide

/-- Claim C6 (amended): the scenario input yields exactly one turn with
speakerName `"Mr. SMITH (Ohio)"` (the two-letter code `"OH"` is stored
separately in the state-code field) and, for every admissible set
iteration order, relatedBillId `"HR2988"`. -/
theorem scenario_ohio_turn (ord : List String → List String) (hord : SetOrder ord) :
    parse_speeches txtOhio Chamber.house ⟨2025, 10, 12⟩ = [spOhio] ∧
    spOhio.speaker_name = "Mr. SMITH (Ohio)" ∧
    spOhio.speaker_state = some "OH" ∧
    (speech_dict_to_model ord spOhio).related_bill_id = some "HR2988" := by
  refine ⟨by decide, by decide, by decide, ?_⟩
  have h : detect_set spOhio.content spOhio.title = ["HR2988"] := by decide
  have hp := hord (detect_set spOhio.content spOhio.title)
  rw [h] at hp
  have he : ord ["HR2988"] = ["HR2988"] := List.perm_singleton.mp hp
  show (detect_bill_references ord spOhio.content spOhio.title).head? = some "HR2988"
  unfold detect_bill_references
  rw [h, he]
  rfl

/-- Witness for the amended C6 theorem at the identity iteration order. -/
theorem scenario_ohio_turn_witness :
    SetOrder id ∧ parse_speeches txtOhio Chamber.house ⟨2025, 10, 12⟩ = [spOhio] :=
  ⟨fun l => List.Perm.refl l, (scenario_ohio_turn id (fun l => List.Perm.refl l)).1⟩

/-! ### Word-boundary lemmas for the citation pattern -/

theorem finishBill_boundary (cs ds r2 : List Char)
    (h : finishBill cs = some (ds, r2)) : wordStopOk r2 = true := by
  simp only [finishBill] at h
  split at h
  · exact absurd h (by simp)
  · split at h
    · next hw =>
      injection h with h2
      rw [Prod.mk.injEq] at h2
      obtain ⟨h3, h4⟩ := h2
      rw [← h4]
      exact hw
    · exact absurd h (by simp)

theorem tryBillAlts_boundary :
    ∀ (alts : List (List (List (Char × Char)))) (cs g1 ds r2 : List Char),
      tryBillAlts alts cs = some (g1, ds, r2) → wordStopOk r2 = true := by
  intro alts
  induction alts with
  | nil =>
    intro cs g1 ds r2 h
    exact absurd h (by simp [tryBillAlts])
  | cons alt alts ih =>
    intro cs g1 ds r2 h
    simp only [tryBillAlts] at h
    split at h
    · split at h
      · next heq =>
        injection h with h2
        rw [Prod.mk.injEq] at h2
        obtain ⟨h3, h4⟩ := h2
        rw [Prod.mk.injEq] at h4
        obtain ⟨h5, h6⟩ := h4
        subst h6
        exact finishBill_boundary _ _ _ heq
      · exact ih cs g1 ds r2 h
    · exact ih cs g1 ds r2 h

/-- Claim C9: the detector never reports a citation whose digit run is
immediately followed by a word character (in particular a letter): every
successful match's remainder starts with a non-word char or is the end
of text.  Concretely, `"HR2988A"` yields no citation while `"HR 2988,"`
yields `"HR2988"`. -/
theorem detect_digit_boundary :
    (∀ (cs g1 ds r2 : List Char), tryBill cs = some (g1, ds, r2) →
      wordStopOk r2 = true) ∧
    detect_set "HR2988A" none = [] ∧
    detect_set "HR 2988," none = ["HR2988"] := by
  refine ⟨?_, by decide, by decide⟩
  intro cs g1 ds r2 h
  exact tryBillAlts_boundary billAlts cs g1 ds r2 h

/-- Witness for C9's boundary property at a concrete match. -/
theorem detect_digit_boundary_witness :
    tryBill ("HR 2988,".data) = some ("HR".data, "2988".data, [',']) ∧
    wordStopOk [','] = true :=
  ⟨by decide, detect_digit_boundary.1 ("HR 2988,".data) ("HR".data) ("2988".data) [','] (by decide)⟩

/-! ### Helper lemmas for the topic-search characterization -/

theorem downFind_some {α : Type} (f : Nat → Option α) :
    ∀ (n : Nat) (x : α), downFind f n = some x →
    ∃ k, k ≤ n ∧ f k = some x ∧ ∀ j, k < j → j ≤ n → f j = none := by
  intro n
  induction n with
  | zero =>
    intro x h
    exact ⟨0, Nat.le_refl 0, h, fun j hj1 hj2 => absurd hj2 (by omega)⟩
  | succ n ih =>
    intro x h
    simp only [downFind] at h
    split at h
    · next y hy =>
      injection h with h1
      subst h1
      exact ⟨n + 1, Nat.le_refl _, hy, fun j hj1 hj2 => absurd hj2 (by omega)⟩
    · next hy =>
      obtain ⟨k, hk, hfk, hnone⟩ := ih x h
      refine ⟨k, by omega, hfk, fun j hj1 hj2 => ?_⟩
      rcases Nat.lt_or_ge j (n + 1) with hlt | hge
      · exact hnone j hj1 (by omega)
      · have hj : j = n + 1 := by omega
        subst hj
        exact hy

theorem downFind_none {α : Type} (f : Nat → Option α) :
    ∀ (n : Nat), downFind f n = none → ∀ k, k ≤ n → f k = none := by
  intro n
  induction n with
  | zero =>
    intro h k hk
    have hk0 : k = 0 := by omega
    subst hk0
    exact h
  | succ n ih =>
    intro h k hk
    simp only [downFind] at h
    split at h
    · exact absurd h (by simp)
    · next hy =>
      rcases Nat.lt_or_ge k (n + 1) with hlt | hge
      · exact ih h k (by omega)
      · have hk1 : k = n + 1 := by omega
        subst hk1
        exact hy

theorem countWhile_le_length (p : Char → Bool) : ∀ l : List Char, countWhile p l ≤ l.length := by
  intro l
  induction l with
  | nil => simp [countWhile]
  | cons c l ih =>
    rw [countWhile, List.takeWhile_cons]
    split
    · simp only [List.length_cons]
      rw [countWhile] at ih
      omega
    · simp

theorem countWhile_get (p : Char → Bool) : ∀ (l : List Char) (j : Nat),
    j < countWhile p l → optIs (l[j]?) p = true := by
  intro l
  induction l with
  | nil => intro j h; simp [countWhile] at h
  | cons c l ih =>
    intro j h
    rw [countWhile, List.takeWhile_cons] at h
    by_cases hp : p c = true
    · rw [if_pos hp] at h
      simp only [List.length_cons] at h
      cases j with
      | zero => simpa [optIs]
      | succ j =>
        rw [List.getElem?_cons_succ]
        exact ih j (by rw [countWhile]; omega)
    · rw [if_neg hp] at h
      simp at h

theorem countWhile_stop (p : Char → Bool) : ∀ l : List Char,
    optIs (l[countWhile p l]?) p = false := by
  intro l
  induction l with
  | nil => simp [countWhile, optIs]
  | cons c l ih =>
    rw [countWhile, List.takeWhile_cons]
    by_cases hp : p c = true
    · rw [if_pos hp]
      simp only [List.length_cons, List.getElem?_cons_succ]
      rw [countWhile] at ih
      exact ih
    · rw [if_neg hp]
      simp [optIs, hp]

theorem topicB_out_of_range (cs : List Char) (p g : Nat) (hp : cs.length ≤ p) :
    topicMatchAtB cs p g = false := by
  have hg : cs[p]? = none := List.getElem?_eq_none hp
  simp [topicMatchAtB, hg, optIs]

theorem lineStart_bridge (cs : List Char) (n : Nat) (hn : n < cs.length) :
    lineStartB (prevAt cs n) =
      (n == 0 || optIs (cs[n - 1]?) (fun x => x == '\n')) := by
  unfold prevAt
  cases n with
  | zero => simp [lineStartB]
  | succ m =>
    rw [if_neg (Nat.succ_ne_zero m)]
    cases hget : cs[m]? with
    | none =>
      have := List.getElem?_eq_none_iff.mp hget
      omega
    | some d =>
      simp [lineStartB, hget, optIs]

theorem groupOk_some (l : List Char) (g : Nat) (grp : List Char)
    (h : groupOk l g = some grp) :
    11 ≤ g ∧ endOkB (l.drop g) = true ∧ grp = l.take g := by
  unfold groupOk at h
  split at h
  · next h11 =>
    split at h
    · next hend =>
      injection h with h1
      exact ⟨h11, hend, h1.symm⟩
    · exact absurd h (by simp)
  · exact absurd h (by simp)

theorem groupOk_of (l : List Char) (g : Nat) (h11 : 11 ≤ g)
    (hend : endOkB (l.drop g) = true) : groupOk l g = some (l.take g) := by
  unfold groupOk
  rw [if_pos h11, if_pos hend]

theorem topicB_first_factors (cs : List Char) (n : Nat) (c : Char)
    (hget : cs[n]? = some c) (g : Nat) (hB : topicMatchAtB cs n g = true) :
    (lineStartB (prevAt cs n) && c.isUpper) = true := by
  have hn : n < cs.length := (List.getElem?_eq_some.mp hget).1
  simp only [topicMatchAtB, Bool.and_eq_true] at hB
  obtain ⟨⟨⟨⟨⟨h1, h2⟩, _⟩, _⟩, _⟩, _⟩ := hB
  rw [Bool.and_eq_true]
  constructor
  · rw [lineStart_bridge cs n hn]
    exact h1
  · rw [hget] at h2
    simpa [optIs] using h2

theorem topicB_iff_at (cs : List Char) (n : Nat) (c : Char) (rest : List Char)
    (hdrop : cs.drop n = c :: rest)
    (hcond : (lineStartB (prevAt cs n) && c.isUpper) = true) (g : Nat) :
    topicMatchAtB cs n g = true ↔
      (11 ≤ g ∧ g ≤ countWhile topicClassCh rest + 1 ∧
        endOkB ((c :: rest).drop g) = true) := by
  have hlenr : rest.length + 1 = cs.length - n := by
    have h1 := List.length_drop n cs
    rw [hdrop] at h1
    simpa using h1
  have hn : n < cs.length := by omega
  have hget : cs[n]? = some c := by
    have h0 := List.getElem?_drop cs n 0
    rw [hdrop] at h0
    simpa using h0.symm
  have hrest : cs.drop (n + 1) = rest := by
    have h1 := List.drop_drop 1 n cs
    rw [hdrop] at h1
    simpa [Nat.add_comm] using h1.symm
  have hrestget : ∀ j, rest[j]? = cs[n + 1 + j]? := by
    intro j
    have h0 := List.getElem?_drop cs (n + 1) j
    rw [hrest] at h0
    exact h0
  have hcr2 : (c :: rest).drop g = cs.drop (n + g) := by
    rw [← hdrop, List.drop_drop, Nat.add_comm]
  constructor
  · intro hB
    simp only [topicMatchAtB, Bool.and_eq_true] at hB
    obtain ⟨⟨⟨⟨⟨h1, h2⟩, h3⟩, h4⟩, h5⟩, h6⟩ := hB
    rw [decide_eq_true_eq] at h3 h4
    have hall : ∀ j, j < g - 1 → optIs (cs[n + 1 + j]?) topicClassCh = true := by
      intro j hj
      exact List.all_eq_true.mp h5 j (List.mem_range.mpr hj)
    have hm : g ≤ countWhile topicClassCh rest + 1 := by
      by_contra hcon
      push_neg at hcon
      have hj : countWhile topicClassCh rest < g - 1 := by omega
      have hx := hall (countWhile topicClassCh rest) hj
      rw [← hrestget] at hx
      rw [countWhile_stop topicClassCh rest] at hx
      exact Bool.noConfusion hx
    refine ⟨h3, hm, ?_⟩
    rw [Bool.or_eq_true] at h6
    rcases h6 with h6 | h6
    · rw [decide_eq_true_eq] at h6
      have hdg : (c :: rest).drop g = [] := by
        apply List.drop_eq_nil_of_le
        simp only [List.length_cons]
        omega
      rw [hdg]
      rfl
    · cases hgt : cs[n + g]? with
      | none => rw [hgt] at h6; simp [optIs] at h6
      | some d =>
        rw [hgt] at h6
        simp only [optIs] at h6
        have hhd : (cs.drop (n + g))[0]? = some d := by
          rw [List.getElem?_drop]
          simpa using hgt
        rw [hcr2]
        cases hdg : cs.drop (n + g) with
        | nil => rw [hdg] at hhd; simp at hhd
        | cons e tail =>
          rw [hdg] at hhd
          simp only [List.getElem?_cons_zero, Option.some.injEq] at hhd
          subst hhd
          simpa [endOkB] using h6
  · rintro ⟨h11, hm, hend⟩
    have hcw := countWhile_le_length topicClassCh rest
    obtain ⟨hc1, hc2⟩ : lineStartB (prevAt cs n) = true ∧ c.isUpper = true := by
      simpa using hcond
    simp only [topicMatchAtB, Bool.and_eq_true]
    refine ⟨⟨⟨⟨⟨?_, ?_⟩, ?_⟩, ?_⟩, ?_⟩, ?_⟩
    · rw [← lineStart_bridge cs n hn]
      exact hc1
    · rw [hget]
      simpa [optIs] using hc2
    · rw [decide_eq_true_eq]
      exact h11
    · rw [decide_eq_true_eq]
      omega
    · rw [List.all_eq_true]
      intro j hj
      rw [List.mem_range] at hj
      rw [← hrestget]
      exact countWhile_get topicClassCh rest j (by omega)
    · rcases hcase : (c :: rest).drop g with _ | ⟨e, tail⟩
      · have hle := List.drop_eq_nil_iff.mp hcase
        simp only [List.length_cons] at hle
        have hng : n + g = cs.length := by omega
        simp [hng]
      · rw [hcase] at hend
        simp only [endOkB] at hend
        have hgt : cs[n + g]? = some e := by
          have h0 := List.getElem?_drop cs (n + g) 0
          rw [← hcr2, hcase] at h0
          simpa using h0.symm
        rw [hgt]
        simp [optIs, hend]

theorem topicSearch_go (cs : List Char) :
    ∀ (k n : Nat), cs.length - n ≤ k → n ≤ cs.length →
      (topicSearch (prevAt cs n) (cs.drop n) = none →
        ∀ p g, n ≤ p → topicMatchAtB cs p g = false) ∧
      (∀ grp, topicSearch (prevAt cs n) (cs.drop n) = some grp →
        ∃ p, n ≤ p ∧ topicMatchAtB cs p grp.length = true ∧
          grp = (cs.drop p).take grp.length ∧
          (∀ p', n ≤ p' → p' < p → ∀ g, topicMatchAtB cs p' g = false) ∧
          (∀ g, topicMatchAtB cs p g = true → g ≤ grp.length)) := by
  intro k
  induction k with
  | zero =>
    intro n hk hn
    have hdrop : cs.drop n = [] := List.drop_eq_nil_of_le (by omega)
    rw [hdrop]
    constructor
    · intro _ p g hp
      exact topicB_out_of_range cs p g (by omega)
    · intro grp h
      simp [topicSearch] at h
  | succ k ih =>
    intro n hk hn
    cases hdrop : cs.drop n with
    | nil =>
      have hge : cs.length ≤ n := List.drop_eq_nil_iff.mp hdrop
      constructor
      · intro _ p g hp
        exact topicB_out_of_range cs p g (by omega)
      · intro grp h
        simp [topicSearch] at h
    | cons c rest =>
      have hlenr : rest.length + 1 = cs.length - n := by
        have h1 := List.length_drop n cs
        rw [hdrop] at h1
        simpa using h1
      have hn' : n < cs.length := by omega
      have hget : cs[n]? = some c := by
        have h0 := List.getElem?_drop cs n 0
        rw [hdrop] at h0
        simpa using h0.symm
      have hrest : cs.drop (n + 1) = rest := by
        have h1 := List.drop_drop 1 n cs
        rw [hdrop] at h1
        simpa [Nat.add_comm] using h1.symm
      have hprev1 : prevAt cs (n + 1) = some c := by
        unfold prevAt
        rw [if_neg (Nat.succ_ne_zero n)]
        simpa using hget
      have ihn := ih (n + 1) (by omega) (by omega)
      rw [hprev1, hrest] at ihn
      by_cases hcond : (lineStartB (prevAt cs n) && c.isUpper) = true
      · simp only [topicSearch]
        rw [if_pos hcond]
        cases hdf : downFind (groupOk (c :: rest)) (countWhile topicClassCh rest + 1) with
        | some grp0 =>
          simp only [hdf]
          constructor
          · intro h
            exact absurd h (by simp)
          · intro grp hsome
            injection hsome with h1
            subst h1
            obtain ⟨g, hgle, hgOk, hnone⟩ := downFind_some _ _ _ hdf
            obtain ⟨hg11, hend, hgrp⟩ := groupOk_some _ _ _ hgOk
            have hcw := countWhile_le_length topicClassCh rest
            have hglen : grp0.length = g := by
              rw [hgrp, List.length_take]
              simp only [List.length_cons]
              omega
            have hBn : topicMatchAtB cs n g = true := by
              rw [topicB_iff_at cs n c rest hdrop hcond g]
              exact ⟨hg11, hgle, hend⟩
            refine ⟨n, Nat.le_refl n, ?_, ?_, ?_, ?_⟩
            · rw [hglen]
              exact hBn
            · rw [hglen, hdrop]
              exact hgrp
            · intro p' h1 h2 g'
              exact absurd h2 (by omega)
            · intro g' hB'
              rw [hglen]
              rw [topicB_iff_at cs n c rest hdrop hcond g'] at hB'
              obtain ⟨h11', hm', hend'⟩ := hB'
              by_contra hcon
              push_neg at hcon
              have hx := hnone g' (by omega) (by omega)
              rw [groupOk_of (c :: rest) g' h11' hend'] at hx
              exact Option.noConfusion hx
        | none =>
          simp only [hdf]
          have hBnone : ∀ g, topicMatchAtB cs n g = false := by
            intro g
            cases hB : topicMatchAtB cs n g
            · rfl
            · exfalso
              rw [topicB_iff_at cs n c rest hdrop hcond g] at hB
              obtain ⟨h11, hm, hend⟩ := hB
              have hx := downFind_none _ _ hdf g hm
              rw [groupOk_of (c :: rest) g h11 hend] at hx
              exact Option.noConfusion hx
          constructor
          · intro h p g hp
            rcases Nat.eq_or_lt_of_le hp with heq | hlt
            · rw [← heq]
              exact hBnone g
            · exact ihn.1 h p g (by omega)
          · intro grp h
            obtain ⟨p, hp, hB, hgrp, hmin, hmax⟩ := ihn.2 grp h
            refine ⟨p, by omega, hB, hgrp, ?_, hmax⟩
            intro p' h1 h2 g
            rcases Nat.eq_or_lt_of_le h1 with heq | hlt
            · rw [← heq]
              exact hBnone g
            · exact hmin p' (by omega) h2 g
      · simp only [topicSearch]
        rw [if_neg hcond]
        have hBn : ∀ g, topicMatchAtB cs n g = false := by
          intro g
          cases hB : topicMatchAtB cs n g
          · rfl
          · exact absurd (topicB_first_factors cs n c hget g hB) hcond
        constructor
        · intro h p g hp
          rcases Nat.eq_or_lt_of_le hp with heq | hlt
          · rw [← heq]
            exact hBn g
          · exact ihn.1 h p g (by omega)
        · intro grp h
          obtain ⟨p, hp, hB, hgrp, hmin, hmax⟩ := ihn.2 grp h
          refine ⟨p, by omega, hB, hgrp, ?_, hmax⟩
          intro p' h1 h2 g
          rcases Nat.eq_or_lt_of_le h1 with heq | hlt
          · rw [← heq]
            exact hBn g
          · exact hmin p' (by omega) h2 g

/-- Claim C5 counterexample: with two qualifying all-caps lines in the
window, topic recovery returns the span starting at the FIRST line —
which here greedily runs across the newline and covers both lines — not
the most recent (last) line; and a 10-character all-caps line is not
matched at all (the pattern requires 1 + 10 characters). -/
theorem recover_topic_not_last_line :
    (parse_speeches txtTopic Chamber.house dateX).map (fun s => s.title) =
      [some "FIRST TOPIC HEADING\nSECOND TOPIC HEADING"] ∧
    recover_topic ("FIRST TOPIC HEADING\nSECOND TOPIC HEADING\n".data) =
      some ("FIRST TOPIC HEADING\nSECOND TOPIC HEADING".data) ∧
    some ("FIRST TOPIC HEADING\nSECOND TOPIC HEADING".data) ≠
      some ("SECOND TOPIC HEADING".data) ∧
    recover_topic ("ABCDEFGHIJ".data) = none := by
  decide

/-- Claim C5 (amended): topic recovery returns the EARLIEST match of the
header pattern in the window, not the most recent: when it returns a
group, the group starts at the first position that is a line start
beginning with an upper-case letter followed by at least ten characters
from the class (upper-case letters, whitespace, hyphen, comma, period,
apostrophe) and reaching a line end — so the group is at least 11
characters and may run across newlines — and the group is greedy-maximal
at that position; the group is returned trimmed; nothing is returned iff
no position of the window admits a match. -/
theorem recover_topic_first_match :
    (∀ cs : List Char, recover_topic cs = (topicSearch none cs).map pstrip) ∧
    (∀ cs : List Char, topicSearch none cs = none →
      ∀ p g, topicMatchAtB cs p g = false) ∧
    (∀ (cs grp : List Char), topicSearch none cs = some grp →
      ∃ p, topicMatchAtB cs p grp.length = true ∧
        grp = (cs.drop p).take grp.length ∧
        (∀ p', p' < p → ∀ g, topicMatchAtB cs p' g = false) ∧
        (∀ g, topicMatchAtB cs p g = true → g ≤ grp.length)) := by
  refine ⟨fun cs => rfl, ?_, ?_⟩
  · intro cs h p g
    have h' : topicSearch (prevAt cs 0) (cs.drop 0) = none := h
    exact (topicSearch_go cs cs.length 0 (by omega) (by omega)).1 h' p g (Nat.zero_le p)
  · intro cs grp h
    have h' : topicSearch (prevAt cs 0) (cs.drop 0) = some grp := h
    obtain ⟨p, _, hB, hgrp, hmin, hmax⟩ :=
      (topicSearch_go cs cs.length 0 (by omega) (by omega)).2 grp h'
    exact ⟨p, hB, hgrp, fun p' h2 g => hmin p' (Nat.zero_le p') h2 g, hmax⟩

/-- Witness for the amended C5 theorem at a concrete window. -/
theorem recover_topic_first_match_witness :
    ∃ p, topicMatchAtB ("short\nTHE BIG TOPIC HERE\nmore".data) p
        ("THE BIG TOPIC HERE".data).length = true ∧
      ("THE BIG TOPIC HERE".data) =
        (("short\nTHE BIG TOPIC HERE\nmore".data).drop p).take
          ("THE BIG TOPIC HERE".data).length ∧
      (∀ p', p' < p → ∀ g,
        topicMatchAtB ("short\nTHE BIG TOPIC HERE\nmore".data) p' g = false) ∧
      (∀ g, topicMatchAtB ("short\nTHE BIG TOPIC HERE\nmore".data) p g = true →
        g ≤ ("THE BIG TOPIC HERE".data).length) :=
  recover_topic_first_match.2.2 _ _ (by decide)
